import Mathlib

/-!
Verification development for the content-quality metrics evaluator of
`ai_content_factory` (`src/ai_content_factory/core/metrics.py`).

Strings are modelled as `List Char`.  Python floats are modelled as exact
rationals (`ℚ`); Python's `re` operations used by the evaluator are modelled
by dedicated functions that implement the leftmost, greedy-with-backtracking
semantics of the concrete patterns appearing in the source.  Lower-casing and
the `isupper` test are modelled on ASCII letters (Python's behaviour on the
ASCII range).
-/

/-- Strings as lists of characters. -/
abbrev Str := List Char

/-- Python whitespace (`\s`, `str.split()`, `str.strip()`): space, tab,
newline, carriage return, vertical tab, form feed. -/
def isPySpace (c : Char) : Bool :=
  c == ' ' || c == '\t' || c == '\n' || c == '\r' ||
    c == Char.ofNat 11 || c == Char.ofNat 12

/-- ASCII model of Python `str.lower` on a character. -/
def pyToLower (c : Char) : Char :=
  if 'A' ≤ c ∧ c ≤ 'Z' then Char.ofNat (c.toNat + 32) else c

/-- ASCII model of Python `str.isupper` on a character. -/
def isUpperAZ (c : Char) : Bool := 'A' ≤ c && c ≤ 'Z'

/-- Lower-case letter test (`[a-z]`). -/
def isLowerAZ (c : Char) : Bool := 'a' ≤ c && c ≤ 'z'

/-- Python `str.strip()`: drop leading and trailing whitespace. -/
def pyStrip (s : Str) : Str :=
  ((s.dropWhile isPySpace).reverse.dropWhile isPySpace).reverse

/-- Helper for `splitWs`: accumulate the current word (reversed). -/
def splitWsAux : Str → Str → List Str
  | [], acc => if acc = [] then [] else [acc.reverse]
  | c :: cs, acc =>
    if isPySpace c then
      if acc = [] then splitWsAux cs [] else acc.reverse :: splitWsAux cs []
    else splitWsAux cs (c :: acc)

/-- Python `str.split()` with no argument: split on whitespace runs,
producing no empty words. -/
def splitWs (s : Str) : List Str := splitWsAux s []

theorem dropWhile_length_le (p : Char → Bool) :
    ∀ l : Str, (l.dropWhile p).length ≤ l.length := by
  intro l
  induction l with
  | nil => simp [List.dropWhile]
  | cons c cs ih =>
    simp only [List.dropWhile]
    cases p c
    · simp
    · simpa using Nat.le_succ_of_le ih

/-- Helper for `splitOnRuns`: accumulate the current piece (reversed); the
Boolean flag records whether the scan is inside a separator run. -/
def splitOnRunsAux (p : Char → Bool) : Str → Str → Bool → List Str
  | [], acc, false => [acc.reverse]
  | [], _, true => [[]]
  | c :: cs, acc, false =>
    if p c then acc.reverse :: splitOnRunsAux p cs [] true
    else splitOnRunsAux p cs (c :: acc) false
  | c :: cs, _, true =>
    if p c then splitOnRunsAux p cs [] true else splitOnRunsAux p cs [c] false

/-- Python `re.split` on a character-class-plus pattern (e.g. `[.!?]+`):
pieces between maximal runs of separator characters, keeping empty edge
pieces exactly as `re.split` does. -/
def splitOnRuns (p : Char → Bool) (s : Str) : List Str := splitOnRunsAux p s [] false

/-- Python `str.split('\n\n')`. -/
def splitNN : Str → List Str
  | [] => [[]]
  | '\n' :: '\n' :: rest => [] :: splitNN rest
  | c :: rest =>
    match splitNN rest with
    | [] => [[c]]
    | piece :: ps => (c :: piece) :: ps

/-- Python `str.split('\n')`. -/
def splitNl : Str → List Str
  | [] => [[]]
  | '\n' :: rest => [] :: splitNl rest
  | c :: rest =>
    match splitNl rest with
    | [] => [[c]]
    | piece :: ps => (c :: piece) :: ps

/-- Does `pat` occur at the very start of `s`? -/
def matchesAt (pat s : Str) : Bool := pat == s.take pat.length

/-- Python `str.count`: number of non-overlapping occurrences of `pat` in
`s`, scanning left to right; the empty pattern occurs `length + 1` times. -/
def countSub (pat s : Str) : ℕ :=
  match pat, s with
  | [], s => s.length + 1
  | _ :: _, [] => 0
  | p :: ps, c :: cs =>
    if matchesAt (p :: ps) (c :: cs) then
      1 + countSub (p :: ps) ((c :: cs).drop (p :: ps).length)
    else countSub (p :: ps) cs
termination_by s.length
decreasing_by
  · simp only [List.length_drop, List.length_cons]
    omega
  · simp

/-- Python `in` on strings: substring containment. -/
def hasSub (pat s : Str) : Bool := countSub pat s != 0

/-- Count of a single character in a string (Python `str.count` of a
one-character pattern coincides with this). -/
def countChar (c : Char) (s : Str) : ℕ := (s.filter (· == c)).length

/-! ### Fixed-point float formatting (Python `f"{x:.pf}"`), on exact
rationals: round half to even at `p` decimal places. -/

/-- Round a rational to the nearest integer, ties to even. -/
def roundHalfEven (q : ℚ) : ℤ :=
  let f := ⌊q⌋
  if q - f < 1/2 then f
  else if (1 : ℚ)/2 < q - f then f + 1
  else if f % 2 = 0 then f else f + 1

/-- Left-pad a digit string with zeros to length `n`. -/
def padLeftZeros (ds : Str) (n : ℕ) : Str :=
  List.replicate (n - ds.length) '0' ++ ds

/-- Python fixed-point formatting `f"{q:.pf}"` of an exact rational. -/
def formatFixed (q : ℚ) (p : ℕ) : String :=
  let n := roundHalfEven (q * (10 : ℚ) ^ p)
  let ds := padLeftZeros (Nat.repr n.natAbs).toList (p + 1)
  let ip := ds.take (ds.length - p)
  let fp := ds.drop (ds.length - p)
  let core := if p = 0 then ip else ip ++ '.' :: fp
  String.mk (if q < 0 then '-' :: core else core)

/-! ### Data model (`ArticleSection`, `Article`, `ContentMetrics`) -/

/-- `ArticleSection` dataclass. -/
structure ArticleSection where
  heading : Str
  level : ℤ
  content : Str
  word_count : ℤ
deriving DecidableEq

/-- `Article` dataclass (`html_content` is irrelevant to the metrics and
omitted). -/
structure Article where
  title : Str
  meta_description : Str
  introduction : Str
  sections : List ArticleSection
  conclusion : Str
  call_to_action : Str
  total_word_count : ℤ
  markdown_content : Str
deriving DecidableEq

/-- The SEO checklist dictionary returned by `_get_seo_checklist` (a dict
with six fixed keys, in insertion order). -/
structure SeoChecklist where
  keyword_in_title : Bool
  keyword_in_meta : Bool
  keyword_in_intro : Bool
  keyword_in_conclusion : Bool
  has_meta_description : Bool
  meta_description_length_ok : Bool
deriving DecidableEq

/-- The `details` dictionary assembled by `evaluate_article`. -/
structure MetricsDetails where
  actual_word_count : ℤ
  target_word_count : ℤ
  keyword_occurrences : ℕ
  heading_hierarchy_issues : List String
  seo_checklist : SeoChecklist
deriving DecidableEq

/-- `ContentMetrics` dataclass. -/
structure ContentMetrics where
  content_quality_score : ℚ
  brand_voice_similarity : ℚ
  keyword_density : ℚ
  readability_score : ℚ
  word_count_accuracy : ℚ
  generation_time : ℚ
  heading_structure_score : ℚ
  seo_requirements_score : ℚ
  details : MetricsDetails
  timestamp : String
deriving DecidableEq

/-- `ContentMetrics.passes_requirements`: the eight threshold checks, each
appending one failure string when it fails; returns
`(len(failures) == 0, failures)`. -/
def ContentMetrics.passes_requirements (m : ContentMetrics) : Bool × List String :=
  let failures :=
    (if m.content_quality_score < 70 then
      ["Quality score " ++ formatFixed m.content_quality_score 1 ++ " < 70"] else []) ++
    (if m.brand_voice_similarity < 4/5 then
      ["Brand voice " ++ formatFixed m.brand_voice_similarity 2 ++ " < 0.80"] else []) ++
    (if ¬(1 ≤ m.keyword_density ∧ m.keyword_density ≤ 2) then
      ["Keyword density " ++ formatFixed m.keyword_density 2 ++ "% not in 1-2% range"] else []) ++
    (if m.readability_score < 60 then
      ["Readability " ++ formatFixed m.readability_score 1 ++ " < 60"] else []) ++
    (if m.word_count_accuracy < 90 then
      ["Word count accuracy " ++ formatFixed m.word_count_accuracy 1 ++ "% < 90%"] else []) ++
    (if 300 < m.generation_time then
      ["Generation time " ++ formatFixed m.generation_time 1 ++ "s > 300s"] else []) ++
    (if m.heading_structure_score < 1 then
      ["Heading structure " ++ formatFixed m.heading_structure_score 1 ++ " < 1.0"] else []) ++
    (if m.seo_requirements_score < 1 then
      ["SEO requirements " ++ formatFixed m.seo_requirements_score 1 ++ " < 1.0"] else [])
  (failures.isEmpty, failures)

/-! ### Scoring functions of `ContentMetricsEvaluator` -/

/-- `_calculate_word_count_accuracy`. -/
def calculate_word_count_accuracy (a : Article) (target : ℤ) : ℚ :=
  if target = 0 then 100
  else max 0 ((1 - |(a.total_word_count : ℚ) - (target : ℚ)| / (target : ℚ)) * 100)

/-- `_count_keyword_occurrences`: `markdown.lower().count(keyword.lower())`. -/
def count_keyword_occurrences (a : Article) (keyword : Str) : ℕ :=
  countSub (keyword.map pyToLower) (a.markdown_content.map pyToLower)

/-- `_calculate_keyword_density` (the same lower-cased non-overlapping count
as `_count_keyword_occurrences`, divided by `total_word_count`). -/
def calculate_keyword_density (a : Article) (keyword : Str) : ℚ :=
  let count := count_keyword_occurrences a keyword
  if a.total_word_count = 0 then 0
  else (count : ℚ) / (a.total_word_count : ℚ) * 100

/-- `_calculate_brand_voice_similarity`, with the similarity-store
collaborator's behaviour (the value of `self.db_manager.query(...)`, or the
exception raised anywhere inside the `try` block, e.g. by `load_config`)
passed in as an `Except` parameter.  The `try/except` maps any exception to
`0.0`; an empty result list yields `0.0`; any non-empty result yields the
placeholder constant `0.85`. -/
def calculate_brand_voice_similarity (outcome : Except String (List String)) : ℚ :=
  match outcome with
  | .error _ => 0
  | .ok results => if results = [] then 0 else 17/20

/-- `_get_seo_checklist`. -/
def get_seo_checklist (a : Article) (keyword : Str) : SeoChecklist :=
  let kw := keyword.map pyToLower
  { keyword_in_title := hasSub kw (a.title.map pyToLower)
    keyword_in_meta := hasSub kw (a.meta_description.map pyToLower)
    keyword_in_intro := hasSub kw (a.introduction.map pyToLower)
    keyword_in_conclusion := hasSub kw (a.conclusion.map pyToLower)
    has_meta_description := decide (0 < a.meta_description.length)
    meta_description_length_ok :=
      decide (120 ≤ a.meta_description.length ∧ a.meta_description.length ≤ 160) }

/-- The checklist's values, in the dict's insertion order. -/
def SeoChecklist.values (c : SeoChecklist) : List Bool :=
  [c.keyword_in_title, c.keyword_in_meta, c.keyword_in_intro,
   c.keyword_in_conclusion, c.has_meta_description, c.meta_description_length_ok]

/-- `_evaluate_seo_requirements`: fraction of passed checklist entries. -/
def evaluate_seo_requirements (a : Article) (keyword : Str) : ℚ :=
  let checklist := (get_seo_checklist a keyword).values
  let passed := (checklist.filter id).length
  let total := checklist.length
  if 0 < total then (passed : ℚ) / (total : ℚ) else 0

/-! ### `_calculate_quality_score` and its five components -/

/-- The sentence list used by `_calculate_quality_score`:
`re.split(r'[.!?]+', text)`, then strip each piece and keep non-empty ones. -/
def sentencesOf (text : Str) : List Str :=
  ((splitOnRuns (fun c => c == '.' || c == '!' || c == '?') text).map pyStrip).filter (· ≠ [])

/-- Structure completeness (20 points). -/
def structure_score (a : Article) : ℚ :=
  ((if 50 < a.introduction.length then 1 else 0) +
   (if 2 ≤ a.sections.length then 1 else 0) +
   (if 50 < a.conclusion.length then 1 else 0) +
   (if 20 < a.call_to_action.length then 1 else 0)) * 5

/-- Content depth (20 points), contributed only when sections exist. -/
def depth_score (a : Article) : ℚ :=
  if a.sections = [] then 0
  else
    let avg : ℚ := ((a.sections.map (·.word_count)).sum : ℤ) / (a.sections.length : ℚ)
    min 20 (avg / 200 * 20)

/-- Sentence variety (20 points); `np.std` of the sentence word-lengths is an
exogenous deterministic function `stdFn` (its exact value is irrational in
general and no claim depends on it). -/
def variety_score (stdFn : List ℕ → ℚ) (text : Str) : ℚ :=
  let sentences := sentencesOf text
  if sentences = [] then 0
  else
    let lengths := sentences.map (fun s => (splitWs s).length)
    let variety := if 1 < lengths.length then stdFn lengths else 0
    min 20 (variety / 5 * 20)

/-- Does a string start with `'#'` (Python `p.startswith('#')`)? -/
def startsHash : Str → Bool
  | '#' :: _ => true
  | _ => false

/-- Paragraph structure (20 points): split on `'\n\n'`, keep stripped pieces
that are non-empty and whose raw text does not start with `'#'`. -/
def para_score (text : Str) : ℚ :=
  let paragraphs := (splitNN text).filterMap (fun p =>
    if pyStrip p ≠ [] ∧ ¬ startsHash p then some (pyStrip p) else none)
  if paragraphs = [] then 0
  else
    let avg : ℚ :=
      ((paragraphs.map (fun p => (splitWs p).length)).sum : ℕ) / (paragraphs.length : ℚ)
    if 50 ≤ avg ∧ avg ≤ 150 then 20 else max 0 (20 - |avg - 100| / 10)

/-- Grammar heuristic (a): at least 8 of the first 10 sentences start with an
upper-case letter. -/
def has_proper_capitalization (text : Str) : Bool :=
  8 ≤ (((sentencesOf text).take 10).filter (fun s =>
    match s with
    | c :: _ => isUpperAZ c
    | [] => false)).length

/-- Grammar heuristic (b): `text.count('.') + text.count('!') +
text.count('?') > len(sentences) * 0.8` (strict). -/
def has_punctuation (text : Str) : Bool :=
  decide (((sentencesOf text).length : ℚ) * (8/10) <
    ((countChar '.' text + countChar '!' text + countChar '?' text : ℕ) : ℚ))

/-- Grammar heuristic (c): no `'  '` substring. -/
def no_double_spaces (text : Str) : Bool := ! hasSub [' ', ' '] text

/-- Grammar/punctuation sub-score: satisfied heuristics × 6.67. -/
def grammar_score (text : Str) : ℚ :=
  ((if has_proper_capitalization text then 1 else 0) +
   (if has_punctuation text then 1 else 0) +
   (if no_double_spaces text then 1 else 0)) * (667/100)

/-- `_calculate_quality_score`: sum of the five components, capped at 100. -/
def calculate_quality_score (stdFn : List ℕ → ℚ) (a : Article) : ℚ :=
  min 100 (structure_score a + depth_score a + variety_score stdFn a.markdown_content
    + para_score a.markdown_content + grammar_score a.markdown_content)

/-! ### `_calculate_readability`: markdown stripping, sentence/word/syllable
counts, Flesch formula -/

/-- `re.sub(r'#{1,6}\s+', '', text)`: at each position, one to six `'#'`
(a run of seven or more `'#'` cannot match, since after at most six `'#'`
the pattern requires whitespace) followed by a maximal whitespace run is
deleted; otherwise the character is kept. -/
def stripHeadings : Str → Str
  | [] => []
  | c :: cs' =>
    let j := ((c :: cs').takeWhile (· == '#')).length
    let s := (c :: cs').drop j
    let m := (s.takeWhile isPySpace).length
    if h : 1 ≤ j ∧ j ≤ 6 ∧ 1 ≤ m then stripHeadings (s.drop m)
    else c :: stripHeadings cs'
termination_by cs => cs.length
decreasing_by
  · simp only [List.length_drop, List.length_cons]
    omega
  · simp

/-- `re.sub(r'\[([^\]]+)\]\([^\)]+\)', r'\1', text)`: a markdown link is
replaced by its (non-empty) bracketed text; the greedy classes reach exactly
to the next `']'` / `')'`. -/
def stripLinks (cs : Str) : Str :=
  match cs with
  | [] => []
  | '[' :: rest =>
    let inner := rest.takeWhile (· != ']')
    (match h : rest.drop inner.length with
     | ']' :: '(' :: rest2 =>
       let url := rest2.takeWhile (· != ')')
       (match h2 : rest2.drop url.length with
        | ')' :: rest3 =>
          if inner = [] ∨ url = [] then '[' :: stripLinks rest
          else inner ++ stripLinks rest3
        | _ => '[' :: stripLinks rest)
     | _ => '[' :: stripLinks rest)
  | c :: rest => c :: stripLinks rest
termination_by cs.length
decreasing_by
  · simp
  · have hl := congrArg List.length h
    have hl2 := congrArg List.length h2
    simp only [List.length_drop, List.length_cons] at hl hl2
    simp only [List.length_cons]
    omega
  · simp
  · simp
  · simp

/-- `re.sub(r'[*_`]', '', text)`. -/
def stripEmph (cs : Str) : Str :=
  cs.filter (fun c => !(c == '*' || c == '_' || c == Char.ofNat 96))

/-- The full markdown stripping pipeline of `_calculate_readability`. -/
def stripMarkdown (text : Str) : Str := stripEmph (stripLinks (stripHeadings text))

/-- `aeiouy` vowel test. -/
def isVowel (c : Char) : Bool :=
  c == 'a' || c == 'e' || c == 'i' || c == 'o' || c == 'u' || c == 'y'

/-- The vowel-group loop of `_count_syllables`: carries whether the previous
character was a vowel. -/
def countSyllablesLoop : Str → Bool → ℕ
  | [], _ => 0
  | c :: cs, prev =>
    (if isVowel c && !prev then 1 else 0) + countSyllablesLoop cs (isVowel c)

/-- `_count_syllables`: lower-case and strip the word, drop non-`[a-z]`
characters, count vowel-group starts, subtract one for a trailing `'e'`,
floor at one (empty cleaned word: zero). -/
def count_syllables (w : Str) : ℕ :=
  let w' := (pyStrip (w.map pyToLower)).filter isLowerAZ
  if w' = [] then 0
  else (max 1 ((countSyllablesLoop w' false : ℤ) -
    (if w'.getLast? = some 'e' then 1 else 0))).toNat

/-- Sentence-terminator class `[.!?]`. -/
def isSentencePunct (c : Char) : Bool := c == '.' || c == '!' || c == '?'

/-- `_calculate_readability`, on the markdown text. -/
def calculate_readability (text : Str) : ℚ :=
  let t := stripMarkdown text
  let sentences := ((splitOnRuns isSentencePunct t).map pyStrip).filter (· ≠ [])
  let total_sentences := sentences.length
  if total_sentences = 0 then 0
  else
    let words := (splitWs t).filter (fun w => pyStrip w ≠ [])
    let total_words := words.length
    if total_words = 0 then 0
    else
      let total_syllables := (words.map count_syllables).sum
      let score : ℚ := 206835/1000 - (1015/1000) * ((total_words : ℚ) / (total_sentences : ℚ))
        - (846/10) * ((total_syllables : ℚ) / (total_words : ℚ))
      max 0 (min 100 score)

/-! ### Heading extraction: `re.findall(r'^(#{1,6})\s+(.+)$', text, re.MULTILINE)` -/

/-- One match attempt at a line-start position.  `#{1,6}` is greedy over the
leading `'#'` run (a run of length over six never matches, since every
shorter attempt is followed by another `'#'`); `\s+` greedily takes the
maximal whitespace run (which may cross newlines); `.+$` then takes the rest
of the line.  If the whole remainder is whitespace, `\s+` backtracks so that
`.+` starts at the last non-newline character (which must sit at index ≥ 1 of
the whitespace run).  Returns `((level, heading text), rest-of-input)` where
the rest starts at the `$` position (before a newline, or at the end). -/
def matchHeadingAt (cs : Str) : Option ((ℕ × Str) × Str) :=
  let j := (cs.takeWhile (· == '#')).length
  if 1 ≤ j ∧ j ≤ 6 then
    let s := cs.drop j
    let M := (s.takeWhile isPySpace).length
    if M = 0 then none
    else
      let t := s.drop M
      if t ≠ [] then some ((j, t.takeWhile (· != '\n')), t.dropWhile (· != '\n'))
      else
        let trailing := (s.reverse.takeWhile (· == '\n')).reverse
        let core := s.take (s.length - trailing.length)
        match core.reverse with
        | c :: _ :: _ => some ((j, [c]), trailing)
        | _ => none
  else none

theorem takeWhile_length_le (p : Char → Bool) :
    ∀ l : Str, (l.takeWhile p).length ≤ l.length := by
  intro l
  induction l with
  | nil => simp [List.takeWhile]
  | cons c cs ih =>
    simp only [List.takeWhile]
    cases p c
    · simp
    · simpa using ih

theorem matchHeadingAt_rest_length {cs : Str} {hd : ℕ × Str} {rest : Str}
    (h : matchHeadingAt cs = some (hd, rest)) : rest.length < cs.length := by
  unfold matchHeadingAt at h
  simp only [] at h
  have hj := takeWhile_length_le (· == '#') cs
  split_ifs at h with h1 h2 h3
  · have hrest : rest = ((cs.drop ((cs.takeWhile (· == '#')).length)).drop
        (((cs.drop ((cs.takeWhile (· == '#')).length)).takeWhile isPySpace).length)).dropWhile
        (· != '\n') := by
      simp only [Option.some.injEq, Prod.mk.injEq] at h
      exact h.2.symm
    have := dropWhile_length_le (· != '\n')
      (((cs.drop ((cs.takeWhile (· == '#')).length)).drop
        (((cs.drop ((cs.takeWhile (· == '#')).length)).takeWhile isPySpace).length)))
    rw [hrest]
    simp only [List.length_drop] at this ⊢
    omega
  · split at h
    · simp only [Option.some.injEq, Prod.mk.injEq] at h
      have hrest := h.2
      have : rest.length ≤ (cs.drop ((cs.takeWhile (· == '#')).length)).length := by
        rw [← hrest]
        calc ((cs.drop ((cs.takeWhile (· == '#')).length)).reverse.takeWhile
              (· == '\n')).reverse.length
            ≤ (cs.drop ((cs.takeWhile (· == '#')).length)).reverse.length := by
              rw [List.length_reverse]
              exact takeWhile_length_le _ _
          _ = _ := List.length_reverse _
      simp only [List.length_drop] at this
      omega
    · exact absurd h (by simp)

/-- The `re.findall` scan: matches may start only where `^` holds (offset 0
or just after a newline); after a match the scan resumes at the match's end
(an end-of-line position). -/
def scanHeadings (cs : Str) (lineStart : Bool) : List (ℕ × Str) :=
  match cs with
  | [] => []
  | c :: cs' =>
    if lineStart then
      match h : matchHeadingAt (c :: cs') with
      | some (hd, rest) => hd :: scanHeadings rest false
      | none => scanHeadings cs' (c == '\n')
    else scanHeadings cs' (c == '\n')
termination_by cs.length
decreasing_by
  · exact matchHeadingAt_rest_length h
  · simp
  · simp

/-- `re.findall(r'^(#{1,6})\s+(.+)$', text, re.MULTILINE)` as a list of
`(heading level, heading text)` pairs. -/
def extractHeadings (text : Str) : List (ℕ × Str) := scanHeadings text true

/-! ### `_check_heading_hierarchy` and `_evaluate_heading_structure` -/

/-- `f"Multiple H1 tags ({h1_count})"`. -/
def multipleH1Msg (n : ℕ) : String := "Multiple H1 tags (" ++ Nat.repr n ++ ")"

/-- `f"Skipped heading level: H{prev_level} ‚Üí H{level}"` (the separator
characters are exactly the ones in the source file). -/
def skipMsg (prev lvl : ℕ) : String :=
  "Skipped heading level: H" ++ Nat.repr prev ++ " ‚Üí H" ++ Nat.repr lvl

/-- The hierarchy walk: flag a level that skips past `previous + 1` when a
previous heading exists; always update the previous level. -/
def skipIssuesLoop (prev : ℕ) : List (ℕ × Str) → List String
  | [] => []
  | (lvl, _) :: rest =>
    (if prev + 1 < lvl ∧ 0 < prev then [skipMsg prev lvl] else []) ++ skipIssuesLoop lvl rest

/-- `_check_heading_hierarchy`. -/
def check_heading_hierarchy (text : Str) : List String :=
  let headings := extractHeadings text
  if headings = [] then ["No headings found"]
  else
    let h1_count := (headings.filter (fun h => h.1 == 1)).length
    (if h1_count = 0 then ["Missing H1"]
     else if 1 < h1_count then [multipleH1Msg h1_count] else []) ++
    skipIssuesLoop 0 headings

/-- `_evaluate_heading_structure`: 1.0 with no issues, else
`max(0, 1 - 0.2·issues)`. -/
def evaluate_heading_structure (text : Str) : ℚ :=
  let issues := check_heading_hierarchy text
  if issues.length = 0 then 1
  else max 0 (1 - (issues.length : ℚ) * (2/10))

/-! ### `evaluate_article` -/

/-- `evaluate_article`.  Besides the source's four arguments, the model takes
the exogenous inputs the Python method reads from its environment: the
`np.std` function, the similarity-store collaborator's outcome, and the
construction timestamp (`datetime.now().isoformat()`). -/
def evaluate_article (stdFn : List ℕ → ℚ) (queryOutcome : Except String (List String))
    (timestamp : String) (article : Article) (target_word_count : ℤ)
    (primary_keyword : Str) (generation_time : ℚ) : ContentMetrics :=
  { content_quality_score := calculate_quality_score stdFn article
    brand_voice_similarity := calculate_brand_voice_similarity queryOutcome
    keyword_density := calculate_keyword_density article primary_keyword
    readability_score := calculate_readability article.markdown_content
    word_count_accuracy := calculate_word_count_accuracy article target_word_count
    generation_time := generation_time
    heading_structure_score := evaluate_heading_structure article.markdown_content
    seo_requirements_score := evaluate_seo_requirements article primary_keyword
    details :=
      { actual_word_count := article.total_word_count
        target_word_count := target_word_count
        keyword_occurrences := count_keyword_occurrences article primary_keyword
        heading_hierarchy_issues := check_heading_hierarchy article.markdown_content
        seo_checklist := get_seo_checklist article primary_keyword }
    timestamp := timestamp }

/-! ### Specification-side reference definitions (used to state the claims) -/

/-- The eight (amended) pass thresholds of C1. -/
def meetsAllThresholds (m : ContentMetrics) : Prop :=
  70 ≤ m.content_quality_score ∧ 4/5 ≤ m.brand_voice_similarity ∧
  (1 ≤ m.keyword_density ∧ m.keyword_density ≤ 2) ∧ 60 ≤ m.readability_score ∧
  90 ≤ m.word_count_accuracy ∧ m.generation_time ≤ 300 ∧
  1 ≤ m.heading_structure_score ∧ 1 ≤ m.seo_requirements_score

instance (m : ContentMetrics) : Decidable (meetsAllThresholds m) := by
  unfold meetsAllThresholds
  infer_instance

/-- Number of failed threshold checks of a record. -/
def numFailedChecks (m : ContentMetrics) : ℕ :=
  (if m.content_quality_score < 70 then 1 else 0) +
  (if m.brand_voice_similarity < 4/5 then 1 else 0) +
  (if ¬(1 ≤ m.keyword_density ∧ m.keyword_density ≤ 2) then 1 else 0) +
  (if m.readability_score < 60 then 1 else 0) +
  (if m.word_count_accuracy < 90 then 1 else 0) +
  (if 300 < m.generation_time then 1 else 0) +
  (if m.heading_structure_score < 1 then 1 else 0) +
  (if m.seo_requirements_score < 1 then 1 else 0)

/-- A fixed `details` value for concrete `ContentMetrics` records (the
threshold gate never reads it). -/
def sampleDetails : MetricsDetails :=
  { actual_word_count := 1000
    target_word_count := 1000
    keyword_occurrences := 12
    heading_hierarchy_issues := []
    seo_checklist :=
      { keyword_in_title := true, keyword_in_meta := true, keyword_in_intro := true
        keyword_in_conclusion := true, has_meta_description := true
        meta_description_length_ok := true } }

/-- A record in which every score exactly meets its threshold. -/
def exactThresholdMetrics : ContentMetrics :=
  { content_quality_score := 70, brand_voice_similarity := 4/5, keyword_density := 1
    readability_score := 60, word_count_accuracy := 90, generation_time := 300
    heading_structure_score := 1, seo_requirements_score := 1
    details := sampleDetails, timestamp := "2026-01-01T00:00:00" }

/-- A record with quality score 69.9 and all other checks passing. -/
def quality699Metrics : ContentMetrics :=
  { exactThresholdMetrics with content_quality_score := 699/10 }

/-- A record with heading-structure score 1.2 and all other checks
passing: the code's `< 1.0` check accepts it although `1.2 ≠ 1.0`. -/
def heading12Metrics : ContentMetrics :=
  { exactThresholdMetrics with heading_structure_score := 6/5 }

/-- An article skeleton with a given word count and markdown. -/
def mkArticle (wc : ℤ) (md : Str) : Article :=
  { title := [], meta_description := [], introduction := [], sections := []
    conclusion := [], call_to_action := [], total_word_count := wc
    markdown_content := md }

/-- C7's counterexample document: five sentences, four terminal punctuation
characters — exactly 80 % of the sentence count. -/
def punct80Text : Str := String.toList "A. B. C. D! E"

/-- C2 (reference): syllable starts of a cleaned word — positions holding a
vowel not preceded by a vowel. -/
def syllableStartsRef (c : Str) : ℕ :=
  (((false :: c.map isVowel).zip (c.map isVowel)).filter (fun pr => pr.2 && !pr.1)).length

/-- C2 (reference): syllables of a word per the specification's wording —
clean the word (lower-case, keep `[a-z]`), count non-vowel-to-vowel
transitions, subtract one for a trailing `'e'`, floor at one when the
cleaned word is non-empty, zero when it is empty. -/
def syllablesRef (w : Str) : ℕ :=
  let c := (w.map pyToLower).filter isLowerAZ
  if c = [] then 0
  else max 1 (syllableStartsRef c - (if c.getLast? = some 'e' then 1 else 0))

/-- C2 (reference): the readability score per the specification's wording. -/
def readabilityRef (text : Str) : ℚ :=
  let t := stripMarkdown text
  let sentences := ((splitOnRuns isSentencePunct t).map pyStrip).filter (· ≠ [])
  let words := splitWs t
  if sentences.length = 0 ∨ words.length = 0 then 0
  else
    let syllables := (words.map syllablesRef).sum
    min 100 (max 0 (206835/1000 - (1015/1000) * ((words.length : ℚ) / (sentences.length : ℚ))
      - (846/10) * ((syllables : ℚ) / (words.length : ℚ))))

/-- C4 (reference): the issue list determined by the extracted headings —
"No headings found" when there are none; a missing/multiple-H1 issue from
the H1 count; one skipped-level issue for every adjacent (previous, current)
level pair with `current > previous + 1` and `previous > 0`, the previous
level of the first heading being 0. -/
def issuesRef (hs : List (ℕ × Str)) : List String :=
  if hs = [] then ["No headings found"]
  else
    let levels := hs.map Prod.fst
    let h1s := levels.countP (· == 1)
    (if h1s = 0 then ["Missing H1"] else if 1 < h1s then [multipleH1Msg h1s] else []) ++
    ((0 :: levels).zip levels).filterMap
      (fun pr => if pr.1 + 1 < pr.2 ∧ 0 < pr.1 then some (skipMsg pr.1 pr.2) else none)

/-- C4's concrete document: an H1 followed directly by an H3. -/
def skipDocText : Str := String.toList "# T\n### Skip"

/-! ### Line-level view of heading extraction (for C9) -/

/-- Leading `'#'` run length of a line. -/
def hashCount (l : Str) : ℕ := (l.takeWhile (· == '#')).length

/-- A line is *good* when it is not a bare heading marker: it does not
consist of one to six `'#'` characters followed by whitespace only (such a
line makes the match's `\s+` cross the newline and swallow the next line). -/
def goodLine (l : Str) : Prop :=
  ¬(1 ≤ hashCount l ∧ hashCount l ≤ 6 ∧ (l.drop (hashCount l)).all isPySpace)

instance (l : Str) : Decidable (goodLine l) := by
  unfold goodLine
  infer_instance

/-- The heading text of a heading line: everything after the `'#'` run and
the whitespace run. -/
def headingTextOf (l : Str) : Str :=
  (l.drop (hashCount l)).drop (((l.drop (hashCount l)).takeWhile isPySpace).length)

/-- The heading contributed by a single line: one to six `'#'` followed by
whitespace. -/
def lineHeading (l : Str) : Option (ℕ × Str) :=
  if 1 ≤ hashCount l ∧ hashCount l ≤ 6 ∧
      1 ≤ ((l.drop (hashCount l)).takeWhile isPySpace).length
  then some (hashCount l, headingTextOf l) else none

/-- Rejoin lines with newlines (left inverse of `splitNl`). -/
def joinLines : List Str → Str
  | [] => []
  | [l] => l
  | l :: ls => l ++ '\n' :: joinLines ls

/-- C8's witness document: a single twelve-word paragraph. -/
def w12Text : Str := String.toList "a b c d e f g h i j k l"

/-! ## Theorems -/

/-! ### C1 — `passes_requirements` -/

set_option maxHeartbeats 1600000 in
theorem passes_fst_iff_thresholds :
    ∀ m : ContentMetrics, (m.passes_requirements).1 = true ↔ meetsAllThresholds m := by
  intro m
  simp only [ContentMetrics.passes_requirements, meetsAllThresholds, ← not_lt]
  split_ifs <;> simp_all

theorem passes_fst_iff_no_failures :
    ∀ m : ContentMetrics, (m.passes_requirements).1 = true ↔ (m.passes_requirements).2 = [] := by
  intro m
  simp only [ContentMetrics.passes_requirements]
  exact List.isEmpty_iff

set_option maxHeartbeats 1600000 in
theorem passes_failures_length :
    ∀ m : ContentMetrics, (m.passes_requirements).2.length = numFailedChecks m := by
  intro m
  simp only [ContentMetrics.passes_requirements, numFailedChecks]
  split_ifs <;> simp

theorem formatFixed_699 : formatFixed (699/10) 1 = "69.9" := by
  have h : roundHalfEven ((699/10) * (10:ℚ)^1) = 699 := by norm_num [roundHalfEven]
  have hq : ¬((699:ℚ)/10 < 0) := by norm_num
  simp only [formatFixed, h, if_neg hq]
  decide

theorem exactThreshold_passes :
    ContentMetrics.passes_requirements exactThresholdMetrics = (true, []) := by
  norm_num [ContentMetrics.passes_requirements, exactThresholdMetrics, sampleDetails]

theorem quality699_passes : ContentMetrics.passes_requirements quality699Metrics
    = (false, ["Quality score 69.9 < 70"]) := by
  norm_num [ContentMetrics.passes_requirements, quality699Metrics, exactThresholdMetrics,
    sampleDetails, formatFixed_699]
  decide

theorem heading12_passes : ContentMetrics.passes_requirements heading12Metrics = (true, []) := by
  norm_num [ContentMetrics.passes_requirements, heading12Metrics, exactThresholdMetrics,
    sampleDetails]

/-- C1 (amended: the code's heading-structure and SEO checks are `score ≥ 1.0`,
not `score == 1.0`): `passes_requirements` returns `(true, [])` exactly when
all eight thresholds hold (quality ≥ 70, brand voice ≥ 0.80, density in
[1.0, 2.0], readability ≥ 60, word-count accuracy ≥ 90, generation time
≤ 300, heading structure ≥ 1.0, SEO ≥ 1.0); otherwise it returns `(false,
reasons)` with exactly one reason per failed check; a record exactly meeting
every threshold passes, and a record with quality 69.9 and all else passing
yields exactly one failure string, which mentions `"69.9"` and `"70"`. -/
theorem c1_passes_requirements_amended :
    (∀ m : ContentMetrics, (m.passes_requirements).1 = true ↔ meetsAllThresholds m) ∧
    (∀ m : ContentMetrics, (m.passes_requirements).1 = true ↔ (m.passes_requirements).2 = []) ∧
    (∀ m : ContentMetrics, (m.passes_requirements).2.length = numFailedChecks m) ∧
    ContentMetrics.passes_requirements exactThresholdMetrics = (true, []) ∧
    ContentMetrics.passes_requirements quality699Metrics = (false, ["Quality score 69.9 < 70"]) ∧
    List.IsInfix (String.toList "69.9") (String.toList "Quality score 69.9 < 70") ∧
    List.IsInfix (String.toList "70") (String.toList "Quality score 69.9 < 70") :=
  ⟨passes_fst_iff_thresholds, passes_fst_iff_no_failures, passes_failures_length,
   exactThreshold_passes, quality699_passes, by decide, by decide⟩

/-- C1 counterexample to the claim as stated: the record with
heading-structure score 1.2 (all other checks passing) is accepted by
`passes_requirements` — it returns `(true, [])` — although the claimed
threshold `heading_structure_score == 1.0` does not hold, so "returns
`(true, [])` iff all eight thresholds (with heading == 1.0) hold" is false. -/
theorem c1_counterexample_heading_equality :
    (ContentMetrics.passes_requirements heading12Metrics).1 = true ∧
    (ContentMetrics.passes_requirements heading12Metrics).2 = [] ∧
    heading12Metrics.heading_structure_score ≠ 1 := by
  refine ⟨by rw [heading12_passes], by rw [heading12_passes], ?_⟩
  norm_num [heading12Metrics, exactThresholdMetrics]

/-! ### C3 — keyword density -/

/-- C3: keyword density is the lower-cased non-overlapping occurrence count
divided by `total_word_count`, times 100; a zero `total_word_count` yields
exactly `0.0` (the division is never taken), raising no error. -/
theorem c3_keyword_density :
    (∀ (a : Article) (kw : Str), calculate_keyword_density a kw =
        if a.total_word_count = 0 then 0
        else (count_keyword_occurrences a kw : ℚ) / (a.total_word_count : ℚ) * 100) ∧
    (∀ (a : Article) (kw : Str), a.total_word_count = 0 → calculate_keyword_density a kw = 0) ∧
    calculate_keyword_density (mkArticle 0 (String.toList "k k")) (String.toList "k") = 0 :=
  ⟨fun _ _ => rfl,
   fun a kw h => by simp [calculate_keyword_density, h],
   rfl⟩

/-- C3 witness: the zero-word-count branch at a concrete article. -/
theorem c3_keyword_density_witness :
    (mkArticle 0 (String.toList "k k")).total_word_count = 0 ∧
    calculate_keyword_density (mkArticle 0 (String.toList "k k")) (String.toList "k") = 0 :=
  ⟨rfl, c3_keyword_density.2.1 (mkArticle 0 (String.toList "k k")) (String.toList "k") rfl⟩

/-! ### C5 — word-count accuracy -/

/-- C5: `word_count_accuracy` equals
`max(0, (1 − |actual − target| / target) · 100)` with the `target == 0` case
returning `100.0` before any division; `(1000, 1000) ↦ 100`,
`(900, 1000) ↦ 90`. -/
theorem c5_word_count_accuracy :
    (∀ (a : Article) (target : ℤ), calculate_word_count_accuracy a target =
        if target = 0 then 100
        else max 0 ((1 - |(a.total_word_count : ℚ) - (target : ℚ)| / (target : ℚ)) * 100)) ∧
    calculate_word_count_accuracy (mkArticle 1000 []) 1000 = 100 ∧
    calculate_word_count_accuracy (mkArticle 900 []) 1000 = 90 ∧
    (∀ a : Article, calculate_word_count_accuracy a 0 = 100) := by
  refine ⟨fun _ _ => rfl, ?_, ?_, fun _ => rfl⟩
  · norm_num [calculate_word_count_accuracy, mkArticle]
  · norm_num [calculate_word_count_accuracy, mkArticle]

/-! ### C6 — brand-voice similarity -/

/-- C6: the brand-voice similarity is `0.0` when the collaborator's query
returns no results, `0.0` when the collaborator (or config loading) raises —
the function is total over all outcomes, the exception never escaping — and
the constant `0.85` for any non-empty result list. -/
theorem c6_brand_voice_similarity :
    (∀ e : String, calculate_brand_voice_similarity (.error e) = 0) ∧
    calculate_brand_voice_similarity (.ok []) = 0 ∧
    (∀ (r : String) (rs : List String),
      calculate_brand_voice_similarity (.ok (r :: rs)) = 17/20) ∧
    (∀ o : Except String (List String),
      calculate_brand_voice_similarity o = 0 ∨ calculate_brand_voice_similarity o = 17/20) := by
  refine ⟨fun _ => rfl, rfl, fun r rs => by simp [calculate_brand_voice_similarity], fun o => ?_⟩
  match o with
  | .error _ => exact Or.inl rfl
  | .ok [] => exact Or.inl rfl
  | .ok (r :: rs) => exact Or.inr (by simp [calculate_brand_voice_similarity])

/-! ### C10 — determinism and dependency structure of `evaluate_article` -/

/-- C10: `evaluate_article` is a pure function of the four inputs, the
`np.std` function, the collaborator outcome and the clock: records built
from equal inputs differ at most in the brand-voice score (a function of the
collaborator outcome alone) and the timestamp; the other seven scores and
the whole `details` map are functions of the four inputs only. -/
theorem c10_evaluate_article_deterministic :
    ∀ (stdFn : List ℕ → ℚ) (o o' : Except String (List String)) (ts ts' : String)
      (a : Article) (t : ℤ) (kw : Str) (g : ℚ),
      evaluate_article stdFn o ts a t kw g =
        { evaluate_article stdFn o' ts' a t kw g with
            brand_voice_similarity := calculate_brand_voice_similarity o
            timestamp := ts } ∧
      (evaluate_article stdFn o ts a t kw g).content_quality_score
        = calculate_quality_score stdFn a ∧
      (evaluate_article stdFn o ts a t kw g).keyword_density = calculate_keyword_density a kw ∧
      (evaluate_article stdFn o ts a t kw g).readability_score
        = calculate_readability a.markdown_content ∧
      (evaluate_article stdFn o ts a t kw g).word_count_accuracy
        = calculate_word_count_accuracy a t ∧
      (evaluate_article stdFn o ts a t kw g).generation_time = g ∧
      (evaluate_article stdFn o ts a t kw g).heading_structure_score
        = evaluate_heading_structure a.markdown_content ∧
      (evaluate_article stdFn o ts a t kw g).seo_requirements_score
        = evaluate_seo_requirements a kw ∧
      (evaluate_article stdFn o ts a t kw g).details
        = (evaluate_article stdFn o' ts' a t kw g).details ∧
      (evaluate_article stdFn o ts a t kw g).brand_voice_similarity
        = calculate_brand_voice_similarity o :=
  fun _ _ _ _ _ _ _ _ _ => ⟨rfl, rfl, rfl, rfl, rfl, rfl, rfl, rfl, rfl, rfl⟩

/-! ### C7 — the terminal-punctuation heuristic -/

/-- C7 counterexample to the claim as stated: in the document
`"A. B. C. D! E"` there are 5 sentences and 4 terminal punctuation
characters, so the punctuation count is at least 80 % of the sentence count
(4 = 0.8·5) — yet the code's strict comparison `count > 0.8·sentences` marks
the heuristic unsatisfied and the grammar sub-score counts only the
double-space heuristic (6.67 points). -/
theorem c7_counterexample_at_least_80 :
    (sentencesOf punct80Text).length = 5 ∧
    countChar '.' punct80Text + countChar '!' punct80Text + countChar '?' punct80Text = 4 ∧
    ((sentencesOf punct80Text).length : ℚ) * (8/10) ≤
      ((countChar '.' punct80Text + countChar '!' punct80Text + countChar '?' punct80Text : ℕ) : ℚ) ∧
    has_punctuation punct80Text = false ∧
    grammar_score punct80Text = 667/100 := by
  have h1 : (sentencesOf punct80Text).length = 5 := by decide
  have h2 : countChar '.' punct80Text = 3 := by decide
  have h3 : countChar '!' punct80Text = 1 := by decide
  have h4 : countChar '?' punct80Text = 0 := by decide
  have h5 : has_punctuation punct80Text = false := by
    simp only [has_punctuation, h1, h2, h3, h4]
    norm_num
  have hcap : has_proper_capitalization punct80Text = false := by decide
  have hds : no_double_spaces punct80Text = true := by
    simp [no_double_spaces, hasSub, punct80Text, countSub, matchesAt]
  refine ⟨h1, by rw [h2, h3, h4], by rw [h1, h2, h3, h4]; norm_num, h5, ?_⟩
  rw [grammar_score, hcap, h5, hds]
  norm_num

/-- C7 (amended: the heuristic is satisfied exactly when the terminal
punctuation count is *strictly more* than 80 % of the sentence count):
`has_punctuation` holds iff `0.8·sentences < count`; the grammar sub-score
is 6.67 points per satisfied heuristic; and the grammar sub-score enters
`calculate_quality_score` as one of its five summands. -/
theorem c7_punctuation_heuristic_amended :
    (∀ text : Str, has_punctuation text = true ↔
        ((sentencesOf text).length : ℚ) * (8/10) <
          ((countChar '.' text + countChar '!' text + countChar '?' text : ℕ) : ℚ)) ∧
    (∀ text : Str, grammar_score text =
        (([has_proper_capitalization text, has_punctuation text,
           no_double_spaces text].countP id : ℕ) : ℚ) * (667/100)) ∧
    (∀ (stdFn : List ℕ → ℚ) (a : Article), calculate_quality_score stdFn a =
        min 100 (structure_score a + depth_score a + variety_score stdFn a.markdown_content
          + para_score a.markdown_content + grammar_score a.markdown_content)) := by
  refine ⟨fun text => ?_, fun text => ?_, fun _ _ => rfl⟩
  · simp [has_punctuation]
  · rw [grammar_score]
    cases hc : has_proper_capitalization text <;>
      cases hp : has_punctuation text <;>
        cases hd : no_double_spaces text <;>
          simp [List.countP, List.countP.go] <;> norm_num

/-! ### C8 — the paragraph-structure sub-score -/

/-- C8: the paragraph sub-score splits the document on `'\n\n'`, keeps the
stripped pieces that are non-empty and do not start with `'#'`, and — when
any remain — scores 20 if the average word count per paragraph lies in
[50, 150] and `max(0, 20 − |avg − 100| / 10)` otherwise; the sub-score is
one of `calculate_quality_score`'s five summands. -/
theorem c8_paragraph_structure :
    (∀ text : Str,
      (splitNN text).filterMap (fun p =>
        if pyStrip p ≠ [] ∧ ¬ startsHash p then some (pyStrip p) else none) ≠ [] →
      para_score text =
        (let paras := (splitNN text).filterMap (fun p =>
            if pyStrip p ≠ [] ∧ ¬ startsHash p then some (pyStrip p) else none)
         let avg : ℚ :=
           ((paras.map (fun p => (splitWs p).length)).sum : ℕ) / (paras.length : ℚ)
         if 50 ≤ avg ∧ avg ≤ 150 then 20 else max 0 (20 - |avg - 100| / 10))) ∧
    (∀ (stdFn : List ℕ → ℚ) (a : Article), calculate_quality_score stdFn a =
        min 100 (structure_score a + depth_score a + variety_score stdFn a.markdown_content
          + para_score a.markdown_content + grammar_score a.markdown_content)) := by
  refine ⟨fun text h => ?_, fun _ _ => rfl⟩
  rw [para_score, if_neg h]

/-- C8 witness: the twelve-word single-paragraph document has a non-empty
paragraph list and scores `max(0, 20 − |12 − 100| / 10) = 11.2`. -/
theorem c8_paragraph_structure_witness :
    (splitNN w12Text).filterMap (fun p =>
        if pyStrip p ≠ [] ∧ ¬ startsHash p then some (pyStrip p) else none) ≠ [] ∧
    para_score w12Text = 56/5 := by
  refine ⟨by decide, ?_⟩
  rw [c8_paragraph_structure.1 w12Text (by decide)]
  rw [show (splitNN w12Text).filterMap (fun p =>
      if pyStrip p ≠ [] ∧ ¬ startsHash p then some (pyStrip p) else none) = [w12Text] by decide]
  norm_num [show (splitWs w12Text).length = 12 from by decide,
    show |(12:ℚ)-100| = 88 from by norm_num]

/-! ### C2 -- the readability calculator -/

theorem isPySpace_not_isLowerAZ {c : Char} (h : isPySpace c = true) : isLowerAZ c = false := by
  simp only [isPySpace, Bool.or_eq_true, beq_iff_eq] at h
  rcases h with ((((h | h) | h) | h) | h) | h <;> subst h <;> decide

theorem dropWhile_eq_self_of_none (p : Char → Bool) :
    ∀ l : Str, (∀ c ∈ l, p c = false) → l.dropWhile p = l := by
  intro l h
  cases l with
  | nil => rfl
  | cons c cs => simp [List.dropWhile, h c (by simp)]

theorem filter_dropWhile_pySpace (l : Str) :
    (l.dropWhile isPySpace).filter isLowerAZ = l.filter isLowerAZ := by
  conv_rhs => rw [← List.takeWhile_append_dropWhile (p := isPySpace) (l := l)]
  rw [List.filter_append]
  have : (l.takeWhile isPySpace).filter isLowerAZ = [] := by
    rw [List.filter_eq_nil_iff]
    intro c hc
    simp [isPySpace_not_isLowerAZ (List.mem_takeWhile_imp hc)]
  rw [this, List.nil_append]

theorem filter_pyStrip (l : Str) :
    (pyStrip l).filter isLowerAZ = l.filter isLowerAZ := by
  rw [pyStrip, List.filter_reverse, filter_dropWhile_pySpace, List.filter_reverse,
    List.reverse_reverse, filter_dropWhile_pySpace]

theorem countSyllablesLoop_eq (l : Str) :
    ∀ b : Bool, countSyllablesLoop l b =
      (((b :: l.map isVowel).zip (l.map isVowel)).filter (fun pr => pr.2 && !pr.1)).length := by
  induction l with
  | nil => intro b; simp [countSyllablesLoop]
  | cons c cs ih =>
    intro b
    simp only [countSyllablesLoop, List.map_cons, List.zip_cons_cons, List.filter_cons]
    cases hv : (isVowel c && !b) <;> simp [hv, ih (isVowel c)] <;> omega

theorem toNat_max_sub (n a : ℕ) (ha : a ≤ 1) :
    (max 1 ((n : ℤ) - (a : ℤ))).toNat = max 1 (n - a) := by
  omega

theorem count_syllables_eq_ref (w : Str) : count_syllables w = syllablesRef w := by
  rw [count_syllables, syllablesRef]
  simp only [filter_pyStrip]
  by_cases h : (w.map pyToLower).filter isLowerAZ = []
  · simp [h]
  · rw [if_neg h, if_neg h, syllableStartsRef, countSyllablesLoop_eq]
    rw [show (if ((w.map pyToLower).filter isLowerAZ).getLast? = some 'e' then (1:ℤ) else 0)
        = ((if ((w.map pyToLower).filter isLowerAZ).getLast? = some 'e' then 1 else 0 : ℕ) : ℤ) from
      by split_ifs <;> simp]
    exact toNat_max_sub _ _ (by split_ifs <;> simp)

theorem splitWsAux_mem : ∀ (s acc : Str), (∀ c ∈ acc, isPySpace c = false) →
    ∀ w ∈ splitWsAux s acc, w ≠ [] ∧ ∀ c ∈ w, isPySpace c = false := by
  intro s
  induction s with
  | nil =>
    intro acc hacc w hw
    by_cases h : acc = []
    · simp [splitWsAux, h] at hw
    · simp only [splitWsAux, if_neg h, List.mem_singleton] at hw
      subst hw
      refine ⟨by simpa using h, ?_⟩
      intro c hc
      exact hacc c (by simpa using hc)
  | cons c cs ih =>
    intro acc hacc w hw
    rw [splitWsAux] at hw
    by_cases hc : isPySpace c
    · rw [if_pos hc] at hw
      by_cases h : acc = []
      · rw [if_pos h] at hw
        exact ih [] (by simp) w hw
      · rw [if_neg h, List.mem_cons] at hw
        rcases hw with hw | hw
        · subst hw
          refine ⟨by simpa using h, ?_⟩
          intro x hx
          exact hacc x (by simpa using hx)
        · exact ih [] (by simp) w hw
    · rw [if_neg hc] at hw
      refine ih (c :: acc) ?_ w hw
      intro x hx
      rcases List.mem_cons.mp hx with hx | hx
      · subst hx; simpa using hc
      · exact hacc x hx

theorem pyStrip_eq_self (w : Str) (h : ∀ c ∈ w, isPySpace c = false) : pyStrip w = w := by
  rw [pyStrip, dropWhile_eq_self_of_none _ _ h,
    dropWhile_eq_self_of_none _ _ (by intro c hc; exact h c (by simpa using hc)),
    List.reverse_reverse]

theorem splitWs_filter_strip (t : Str) :
    (splitWs t).filter (fun w => pyStrip w ≠ []) = splitWs t := by
  rw [List.filter_eq_self]
  intro w hw
  have := splitWsAux_mem t [] (by simp) w hw
  rw [pyStrip_eq_self w this.2]
  simpa using this.1

theorem clamp_comm (x : ℚ) : max 0 (min 100 x) = min 100 (max 0 x) := by
  rw [max_min_distrib_left]
  norm_num

theorem count_syllables_funeq : count_syllables = syllablesRef :=
  funext count_syllables_eq_ref

/-- C2: `calculate_readability` agrees with the reference definition on
every markdown text: after stripping markdown, split into sentences on runs
of `.!?` (discarding empty trimmed fragments) and into words on whitespace;
return 0 when either count is 0 (in particular on the empty string);
otherwise `206.835 − 1.015·(words/sentences) − 84.6·(syllables/words)`
clamped into [0, 100], with the specification's syllable count
(non-vowel-to-vowel transitions over `aeiouy`, one subtracted for a
trailing 'e', floored at 1 for non-empty cleaned words, 0 for empty). -/
theorem c2_readability :
    (∀ text : Str, calculate_readability text = readabilityRef text) ∧
    calculate_readability (String.toList "") = 0 := by
  constructor
  · intro text
    rw [calculate_readability, readabilityRef]
    simp only [splitWs_filter_strip, count_syllables_funeq]
    by_cases hS : (((splitOnRuns isSentencePunct (stripMarkdown text)).map pyStrip).filter
        (· ≠ [])).length = 0
    · rw [if_pos hS, if_pos (Or.inl hS)]
    · by_cases hW : (splitWs (stripMarkdown text)).length = 0
      · rw [if_neg hS, if_pos hW, if_pos (Or.inr hW)]
      · rw [if_neg hS, if_neg hW, if_neg (by tauto)]
        exact clamp_comm _
  · have h0 : stripMarkdown (String.toList "") = [] := by
      simp [stripMarkdown, stripHeadings, stripLinks, stripEmph]
    simp only [calculate_readability, h0]
    decide

/-! ### C4 -- heading-hierarchy issues and score -/

theorem skipIssuesLoop_eq (hs : List (ℕ × Str)) : ∀ prev,
    skipIssuesLoop prev hs = ((prev :: hs.map Prod.fst).zip (hs.map Prod.fst)).filterMap
      (fun pr => if pr.1 + 1 < pr.2 ∧ 0 < pr.1 then some (skipMsg pr.1 pr.2) else none) := by
  induction hs with
  | nil => intro prev; simp [skipIssuesLoop]
  | cons h t ih =>
    intro prev
    obtain ⟨lvl, txt⟩ := h
    simp only [skipIssuesLoop, List.map_cons, List.zip_cons_cons, List.filterMap_cons, ih lvl]
    split_ifs <;> simp

theorem h1_count_eq (hs : List (ℕ × Str)) :
    (hs.filter (fun h => h.1 == 1)).length = (hs.map Prod.fst).countP (· == 1) := by
  rw [List.countP_map, ← List.countP_eq_length_filter]
  rfl

theorem check_eq_issuesRef : ∀ text : Str,
    check_heading_hierarchy text = issuesRef (extractHeadings text) := by
  intro text
  rw [check_heading_hierarchy, issuesRef]
  by_cases h : extractHeadings text = []
  · rw [if_pos h, if_pos h]
  · rw [if_neg h, if_neg h, h1_count_eq, skipIssuesLoop_eq]

theorem extract_skipDoc : extractHeadings skipDocText =
    [(1, String.toList "T"), (3, String.toList "Skip")] := by
  simp [skipDocText, extractHeadings, scanHeadings, matchHeadingAt, isPySpace]

theorem check_skipDoc : check_heading_hierarchy skipDocText = [skipMsg 1 3] := by
  rw [check_heading_hierarchy, extract_skipDoc]
  simp [skipIssuesLoop]

theorem matchHeadingAt_none_of_head {c : Char} {cs : Str} (h : ¬c = '#') :
    matchHeadingAt (c :: cs) = none := by
  rw [matchHeadingAt]
  rw [show ((c :: cs).takeWhile (· == '#')).length = 0 by simp [List.takeWhile_cons, h]]
  rw [if_neg (by simp)]

theorem scanHeadings_nil_of_no_hash : ∀ cs : Str, '#' ∉ cs → ∀ b, scanHeadings cs b = [] := by
  intro cs
  induction cs with
  | nil => intro _ b; rw [scanHeadings]
  | cons c cs' ih =>
    intro h b
    have hc : ¬c = '#' := fun hh => h (by simp [hh])
    have h' : '#' ∉ cs' := fun hh => h (by simp [hh])
    rw [scanHeadings.eq_def]
    cases b
    · simp [ih h']
    · simp only [if_true]
      split
      · rename_i hd rest heq
        rw [matchHeadingAt_none_of_head hc] at heq
        cases heq
      · exact ih h' _

/-- C4: `check_heading_hierarchy` returns exactly the issue list the
specification describes for the extracted headings (no headings ⇒
"No headings found"; zero H1s ⇒ "Missing H1", several ⇒ a count issue; one
skipped-level issue per heading whose level exceeds the previous level plus
one while a previous heading exists, the previous level always updating);
`evaluate_heading_structure` is 1 on an empty issue list and
`max(0, 1 − 0.2·issues)` otherwise; `"# T\n### Skip"` yields exactly one
skipped-level issue and score 0.8, and any document with no `'#'` at all
scores 0.8 (sole issue "No headings found"). -/
theorem c4_heading_hierarchy :
    (∀ text : Str, check_heading_hierarchy text = issuesRef (extractHeadings text)) ∧
    (∀ text : Str, evaluate_heading_structure text =
        if check_heading_hierarchy text = [] then 1
        else max 0 (1 - ((check_heading_hierarchy text).length : ℚ) * (2/10))) ∧
    check_heading_hierarchy skipDocText = [skipMsg 1 3] ∧
    evaluate_heading_structure skipDocText = 4/5 ∧
    (∀ text : Str, '#' ∉ text → evaluate_heading_structure text = 4/5) := by
  have hconj2 : ∀ text : Str, evaluate_heading_structure text =
      if check_heading_hierarchy text = [] then 1
      else max 0 (1 - ((check_heading_hierarchy text).length : ℚ) * (2/10)) := by
    intro text
    rw [evaluate_heading_structure]
    by_cases h : check_heading_hierarchy text = []
    · rw [if_pos (by simp [h]), if_pos h]
    · rw [if_neg (by simp [h]), if_neg h]
  have hscore : evaluate_heading_structure skipDocText = 4/5 := by
    rw [hconj2, if_neg (by rw [check_skipDoc]; simp), check_skipDoc]
    norm_num
  refine ⟨check_eq_issuesRef, hconj2, check_skipDoc, hscore, ?_⟩
  intro text h
  have hext : extractHeadings text = [] := scanHeadings_nil_of_no_hash text h true
  have hch : check_heading_hierarchy text = ["No headings found"] := by
    simp [check_heading_hierarchy, hext]
  rw [hconj2, if_neg (by rw [hch]; simp), hch]
  norm_num

theorem c4_heading_hierarchy_witness :
    '#' ∉ String.toList "Hello world." ∧
    evaluate_heading_structure (String.toList "Hello world.") = 4/5 :=
  ⟨by decide, c4_heading_hierarchy.2.2.2.2 _ (by decide)⟩

/-! ### C9 -- line-level soundness of heading extraction -/

theorem drop_length_takeWhile (p : Char → Bool) :
    ∀ l : Str, l.drop (l.takeWhile p).length = l.dropWhile p := by
  intro l
  induction l with
  | nil => rfl
  | cons c cs ih =>
    rw [List.takeWhile_cons, List.dropWhile_cons]
    cases hp : p c
    · simp
    · simpa using ih

theorem takeWhile_append_stop (p : Char → Bool) {b : Char} (hb : p b = false) :
    ∀ (xs ys : Str), (xs ++ b :: ys).takeWhile p = xs.takeWhile p := by
  intro xs ys
  induction xs with
  | nil => simp [List.takeWhile_cons, hb, List.takeWhile]
  | cons x xs' ih =>
    rw [List.cons_append, List.takeWhile_cons, List.takeWhile_cons]
    cases hx : p x
    · rfl
    · rw [ih]

theorem dropWhile_append_stop (p : Char → Bool) {b : Char} (hb : p b = false) :
    ∀ (xs ys : Str), (xs ++ b :: ys).dropWhile p = xs.dropWhile p ++ b :: ys := by
  intro xs ys
  induction xs with
  | nil => simp [List.dropWhile_cons, hb, List.dropWhile]
  | cons x xs' ih =>
    rw [List.cons_append, List.dropWhile_cons, List.dropWhile_cons]
    cases hx : p x
    · simp
    · simpa using ih

theorem takeWhile_all {p : Char → Bool} {l : Str} (h : ∀ x ∈ l, p x = true) :
    l.takeWhile p = l := List.takeWhile_eq_self_iff.mpr h

theorem dropWhile_all {p : Char → Bool} {l : Str} (h : ∀ x ∈ l, p x = true) :
    l.dropWhile p = [] := List.dropWhile_eq_nil_iff.mpr h

theorem dropWhile_head_false (p : Char → Bool) :
    ∀ (l : Str) {c : Char} {cs : Str}, l.dropWhile p = c :: cs → p c = false := by
  intro l
  induction l with
  | nil => intro c cs h; cases h
  | cons x xs ih =>
    intro c cs h
    rw [List.dropWhile_cons] at h
    by_cases hx : p x
    · rw [if_pos hx] at h
      exact ih h
    · rw [if_neg hx] at h
      cases h
      simpa using hx

theorem mem_of_mem_dropWhile (p : Char → Bool) :
    ∀ (l : Str) {x : Char}, x ∈ l.dropWhile p → x ∈ l := by
  intro l
  induction l with
  | nil => intro x h; cases h
  | cons c cs ih =>
    intro x h
    rw [List.dropWhile_cons] at h
    by_cases hc : p c
    · rw [if_pos hc] at h
      exact List.mem_cons_of_mem _ (ih h)
    · rw [if_neg hc] at h
      exact h

theorem matchHeadingAt_line (l : Str) (hnl : '\n' ∉ l) (hg : goodLine l) (rest : Str) :
    matchHeadingAt (l ++ '\n' :: rest)
      = (lineHeading l).map (fun h => (h, ('\n' :: rest : Str))) := by
  have e5 : l.drop ((l.takeWhile (· == '#')).length) = l.dropWhile (· == '#') :=
    drop_length_takeWhile _ l
  have e1 : (l ++ '\n' :: rest).takeWhile (· == '#') = l.takeWhile (· == '#') :=
    takeWhile_append_stop (fun x => x == '#') (b := '\n') (by decide) l rest
  have e2 : (l ++ '\n' :: rest).drop ((l.takeWhile (· == '#')).length)
      = l.dropWhile (· == '#') ++ '\n' :: rest := by
    rw [← e1, drop_length_takeWhile,
      dropWhile_append_stop (fun x => x == '#') (b := '\n') (by decide)]
  by_cases hj : 1 ≤ hashCount l ∧ hashCount l ≤ 6
  case neg =>
    rw [matchHeadingAt, lineHeading]
    simp only [e1]
    rw [show (l.takeWhile (· == '#')).length = hashCount l from rfl]
    rw [if_neg hj, if_neg (by tauto)]
    rfl
  case pos =>
    have hall : (l.dropWhile (· == '#')).all isPySpace = false := by
      have h1 : ¬((l.drop (hashCount l)).all isPySpace = true) := fun hc => hg ⟨hj.1, hj.2, hc⟩
      simp only [hashCount] at h1
      rw [e5] at h1
      simpa using h1
    have hune : (l.dropWhile (· == '#')).dropWhile isPySpace ≠ [] := by
      rw [Ne, List.dropWhile_eq_nil_iff]
      intro hforall
      rw [show ((l.dropWhile (· == '#')).all isPySpace) = true from List.all_eq_true.mpr hforall]
        at hall
      cases hall
    obtain ⟨u0, u', huu⟩ := List.exists_cons_of_ne_nil hune
    have hu0 : isPySpace u0 = false := dropWhile_head_false _ _ huu
    have hwall : ∀ x ∈ (l.dropWhile (· == '#')).takeWhile isPySpace, isPySpace x = true :=
      fun _ hx => List.mem_takeWhile_imp hx
    have hd_decomp : l.dropWhile (· == '#')
        = (l.dropWhile (· == '#')).takeWhile isPySpace ++ u0 :: u' := by
      conv_lhs => rw [← List.takeWhile_append_dropWhile (p := isPySpace)
        (l := l.dropWhile (· == '#')), huu]
    have hnlu : ∀ x ∈ u0 :: u', (x != '\n') = true := by
      intro x hx
      have hxl : x ∈ l := mem_of_mem_dropWhile _ _ (mem_of_mem_dropWhile _ _ (huu ▸ hx))
      have : x ≠ '\n' := fun hh => hnl (hh ▸ hxl)
      simpa using this
    have e3 : ((l.dropWhile (· == '#')) ++ '\n' :: rest).takeWhile isPySpace
        = (l.dropWhile (· == '#')).takeWhile isPySpace := by
      conv_lhs => rw [hd_decomp, List.append_assoc, List.cons_append]
      rw [takeWhile_append_stop isPySpace (b := u0) hu0, takeWhile_all hwall]
    have e4 : ((l.dropWhile (· == '#')) ++ '\n' :: rest).drop
        (((l.dropWhile (· == '#')).takeWhile isPySpace).length)
        = u0 :: (u' ++ '\n' :: rest) := by
      have hsplit : (l.dropWhile (· == '#')) ++ '\n' :: rest
          = (l.dropWhile (· == '#')).takeWhile isPySpace ++ (u0 :: (u' ++ '\n' :: rest)) := by
        conv_lhs => rw [hd_decomp]
        simp
      rw [hsplit, List.drop_left]
    have e5' : l.drop (hashCount l) = l.dropWhile (· == '#') := e5
    by_cases hwe : (l.dropWhile (· == '#')).takeWhile isPySpace = []
    · rw [matchHeadingAt, lineHeading]
      simp only [e1, e2, e3, hwe, List.length_nil]
      rw [show (l.takeWhile (· == '#')).length = hashCount l from rfl]
      rw [if_pos hj, if_pos trivial, e5', hwe]
      rw [if_neg (by rintro ⟨-, -, hx⟩; simp at hx)]
      rfl
    · have hM1 : 1 ≤ ((l.dropWhile (· == '#')).takeWhile isPySpace).length :=
        List.length_pos.mpr hwe
      have e8 : (u0 :: (u' ++ '\n' :: rest)).takeWhile (· != '\n') = u0 :: u' := by
        rw [show u0 :: (u' ++ '\n' :: rest) = (u0 :: u') ++ '\n' :: rest by simp]
        rw [takeWhile_append_stop (fun x => x != '\n') (b := '\n') (by decide)]
        exact takeWhile_all hnlu
      have e9 : (u0 :: (u' ++ '\n' :: rest)).dropWhile (· != '\n') = '\n' :: rest := by
        rw [show u0 :: (u' ++ '\n' :: rest) = (u0 :: u') ++ '\n' :: rest by simp]
        rw [dropWhile_append_stop (fun x => x != '\n') (b := '\n') (by decide)]
        rw [dropWhile_all hnlu, List.nil_append]
      have e7 : (l.dropWhile (· == '#')).drop
          (((l.dropWhile (· == '#')).takeWhile isPySpace).length) = u0 :: u' := by
        rw [drop_length_takeWhile]
        exact huu
      rw [matchHeadingAt, lineHeading]
      simp only [e1, e2, e3, e4, e8, e9]
      rw [show (l.takeWhile (· == '#')).length = hashCount l from rfl]
      rw [if_pos hj]
      rw [if_neg (by simpa [List.length_eq_zero] using hwe)]
      rw [if_pos (by simp : (u0 :: (u' ++ '\n' :: rest) : Str) ≠ [])]
      rw [e5', if_pos ⟨hj.1, hj.2, hM1⟩]
      simp only [headingTextOf, e5', e7, Option.map_some']

theorem matchHeadingAt_line_end (l : Str) (hnl : '\n' ∉ l) (hg : goodLine l) :
    matchHeadingAt l = (lineHeading l).map (fun h => (h, ([] : Str))) := by
  have e5 : l.drop ((l.takeWhile (· == '#')).length) = l.dropWhile (· == '#') :=
    drop_length_takeWhile _ l
  have e5' : l.drop (hashCount l) = l.dropWhile (· == '#') := e5
  by_cases hj : 1 ≤ hashCount l ∧ hashCount l ≤ 6
  case neg =>
    rw [matchHeadingAt, lineHeading]
    rw [show (l.takeWhile (· == '#')).length = hashCount l from rfl]
    rw [if_neg hj, if_neg (by tauto)]
    rfl
  case pos =>
    have hall : (l.dropWhile (· == '#')).all isPySpace = false := by
      have h1 : ¬((l.drop (hashCount l)).all isPySpace = true) := fun hc => hg ⟨hj.1, hj.2, hc⟩
      rw [e5'] at h1
      simpa using h1
    have hune : (l.dropWhile (· == '#')).dropWhile isPySpace ≠ [] := by
      rw [Ne, List.dropWhile_eq_nil_iff]
      intro hforall
      rw [show ((l.dropWhile (· == '#')).all isPySpace) = true from List.all_eq_true.mpr hforall]
        at hall
      cases hall
    obtain ⟨u0, u', huu⟩ := List.exists_cons_of_ne_nil hune
    have hnlu : ∀ x ∈ u0 :: u', (x != '\n') = true := by
      intro x hx
      have hxl : x ∈ l := mem_of_mem_dropWhile _ _ (mem_of_mem_dropWhile _ _ (huu ▸ hx))
      have : x ≠ '\n' := fun hh => hnl (hh ▸ hxl)
      simpa using this
    have e7 : (l.dropWhile (· == '#')).drop
        (((l.dropWhile (· == '#')).takeWhile isPySpace).length) = u0 :: u' := by
      rw [drop_length_takeWhile]
      exact huu
    by_cases hwe : (l.dropWhile (· == '#')).takeWhile isPySpace = []
    · rw [matchHeadingAt, lineHeading]
      rw [show (l.takeWhile (· == '#')).length = hashCount l from rfl]
      rw [e5']
      simp only [hwe, List.length_nil]
      rw [if_pos hj, if_pos trivial, if_neg (by rintro ⟨-, -, hx⟩; omega)]
      rfl
    · have hM1 : 1 ≤ ((l.dropWhile (· == '#')).takeWhile isPySpace).length :=
        List.length_pos.mpr hwe
      rw [matchHeadingAt, lineHeading]
      rw [show (l.takeWhile (· == '#')).length = hashCount l from rfl]
      rw [e5', if_pos hj]
      rw [if_neg (by simpa [List.length_eq_zero] using hwe)]
      rw [e7]
      rw [if_pos (by simp : (u0 :: u' : Str) ≠ [])]
      rw [takeWhile_all hnlu, dropWhile_all hnlu]
      rw [if_pos ⟨hj.1, hj.2, hM1⟩]
      simp only [headingTextOf, e5', e7, Option.map_some']

theorem scanHeadings_false_through (l : Str) (hnl : '\n' ∉ l) :
    ∀ rest : Str, scanHeadings (l ++ '\n' :: rest) false = scanHeadings rest true := by
  induction l with
  | nil =>
    intro rest
    rw [List.nil_append, scanHeadings.eq_def]
    simp
  | cons c l' ih =>
    intro rest
    have hc : (c == '\n') = false := by
      have : c ≠ '\n' := fun hh => hnl (by simp [hh])
      simpa using this
    rw [List.cons_append, scanHeadings.eq_def]
    simp only [Bool.false_eq_true, if_false, hc]
    exact ih (fun hx => hnl (List.mem_cons_of_mem _ hx)) rest

theorem scanHeadings_false_end (l : Str) (hnl : '\n' ∉ l) :
    scanHeadings l false = [] := by
  induction l with
  | nil => rw [scanHeadings]
  | cons c l' ih =>
    have hc : (c == '\n') = false := by
      have : c ≠ '\n' := fun hh => hnl (by simp [hh])
      simpa using this
    rw [scanHeadings.eq_def]
    simp only [Bool.false_eq_true, if_false, hc]
    exact ih (fun hx => hnl (List.mem_cons_of_mem _ hx))

theorem matchHeadingAt_none_head {c : Char} {cs : Str} (h : ¬c = '#') :
    matchHeadingAt (c :: cs) = none := by
  rw [matchHeadingAt]
  rw [show ((c :: cs).takeWhile (· == '#')).length = 0 by simp [List.takeWhile_cons, h]]
  rw [if_neg (by simp)]

theorem scanHeadings_line (l : Str) (hnl : '\n' ∉ l) (hg : goodLine l) (rest : Str) :
    scanHeadings (l ++ '\n' :: rest) true
      = (lineHeading l).toList ++ scanHeadings rest true := by
  cases l with
  | nil =>
    rw [List.nil_append, scanHeadings.eq_def]
    simp only [if_true]
    rw [show matchHeadingAt ('\n' :: rest) = none from matchHeadingAt_none_head (by decide)]
    rw [show lineHeading [] = none by rw [lineHeading]; rw [if_neg (by rintro ⟨h1, -⟩; simp [hashCount] at h1)]]
    simp
  | cons c l' =>
    rw [List.cons_append, scanHeadings.eq_def]
    simp only [if_true]
    have hm := matchHeadingAt_line (c :: l') hnl hg rest
    rw [List.cons_append] at hm
    split
    · rename_i hd rest1 heq
      rw [heq] at hm
      cases hlh : lineHeading (c :: l') with
      | none => rw [hlh] at hm; cases hm
      | some h =>
        rw [hlh] at hm
        simp only [Option.map_some'] at hm
        injection hm with hm'
        rw [Prod.mk.injEq] at hm'
        obtain ⟨hhd, hrest⟩ := hm'
        subst hhd
        subst hrest
        rw [show scanHeadings ('\n' :: rest) false = scanHeadings rest true by
          rw [scanHeadings.eq_def]; simp]
        simp [Option.toList]
    · rename_i heq
      rw [heq] at hm
      cases hlh : lineHeading (c :: l') with
      | some h => rw [hlh] at hm; simp at hm
      | none =>
        have hc : (c == '\n') = false := by
          have : ¬c = '\n' := fun hh => hnl (by simp [hh])
          simpa using this
        rw [hc]
        rw [scanHeadings_false_through l' (fun hx => hnl (List.mem_cons_of_mem _ hx)) rest]
        simp [Option.toList]

theorem scanHeadings_line_end (l : Str) (hnl : '\n' ∉ l) (hg : goodLine l) :
    scanHeadings l true = (lineHeading l).toList := by
  cases l with
  | nil =>
    rw [scanHeadings]
    rw [show lineHeading [] = none by
      rw [lineHeading]; rw [if_neg (by rintro ⟨h1, -⟩; simp [hashCount] at h1)]]
    rfl
  | cons c l' =>
    rw [scanHeadings.eq_def]
    simp only [if_true]
    have hm := matchHeadingAt_line_end (c :: l') hnl hg
    split
    · rename_i hd rest1 heq
      rw [heq] at hm
      cases hlh : lineHeading (c :: l') with
      | none => rw [hlh] at hm; cases hm
      | some h =>
        rw [hlh] at hm
        simp only [Option.map_some'] at hm
        injection hm with hm'
        rw [Prod.mk.injEq] at hm'
        obtain ⟨hhd, hrest⟩ := hm'
        subst hhd
        subst hrest
        rw [scanHeadings]
        simp [Option.toList]
    · rename_i heq
      rw [heq] at hm
      cases hlh : lineHeading (c :: l') with
      | some h => rw [hlh] at hm; simp at hm
      | none =>
        have hc : (c == '\n') = false := by
          have : ¬c = '\n' := fun hh => hnl (by simp [hh])
          simpa using this
        rw [hc]
        rw [scanHeadings_false_end l' (fun hx => hnl (List.mem_cons_of_mem _ hx))]
        simp [Option.toList]

theorem scanHeadings_join : ∀ ls : List Str, (∀ l ∈ ls, '\n' ∉ l ∧ goodLine l) →
    scanHeadings (joinLines ls) true = ls.filterMap lineHeading := by
  intro ls
  induction ls with
  | nil =>
    intro _
    rw [joinLines, scanHeadings]
    rfl
  | cons l ls' ih =>
    intro h
    have hl := h l (by simp)
    cases ls' with
    | nil =>
      rw [joinLines, scanHeadings_line_end l hl.1 hl.2, List.filterMap_cons]
      cases hlh : lineHeading l <;> simp [Option.toList]
    | cons l2 ls'' =>
      rw [show joinLines (l :: l2 :: ls'') = l ++ '\n' :: joinLines (l2 :: ls'') from rfl]
      rw [scanHeadings_line l hl.1 hl.2, List.filterMap_cons,
        ih (fun x hx => h x (List.mem_cons_of_mem _ hx))]
      cases hlh : lineHeading l <;> simp [Option.toList]

theorem splitNl_cons_nl (rest : Str) : splitNl ('\n' :: rest) = [] :: splitNl rest := rfl

theorem splitNl_cons (c : Char) (rest : Str) (hc : ¬c = '\n') :
    splitNl (c :: rest) = match splitNl rest with
      | [] => [[c]]
      | p :: ps => (c :: p) :: ps := by
  rw [splitNl.eq_def]
  split
  · rename_i heq
    cases heq
  · rename_i r heq
    injection heq with h1 h2
    exact absurd h1 hc
  · rename_i c2 r hne heq
    injection heq with h1 h2
    subst h1
    subst h2
    rfl

theorem splitNl_ne_nil : ∀ t : Str, splitNl t ≠ [] := by
  intro t
  cases t with
  | nil => simp [splitNl]
  | cons c cs =>
    by_cases hc : c = '\n'
    · subst hc
      rw [splitNl_cons_nl]
      simp
    · rw [splitNl_cons c cs hc]
      rcases splitNl cs with _ | ⟨p, ps⟩ <;> simp

theorem splitNl_no_nl : ∀ t : Str, ∀ l ∈ splitNl t, '\n' ∉ l := by
  intro t
  induction t with
  | nil =>
    intro l hl
    simp [splitNl] at hl
    simp [hl]
  | cons c cs ih =>
    intro l hl
    by_cases hc : c = '\n'
    · subst hc
      rw [splitNl_cons_nl] at hl
      rcases List.mem_cons.mp hl with h | h
      · simp [h]
      · exact ih l h
    · rw [splitNl_cons c cs hc] at hl
      rcases hcs : splitNl cs with _ | ⟨p, ps⟩
      · exact absurd hcs (splitNl_ne_nil cs)
      · rw [hcs] at hl
        rcases List.mem_cons.mp hl with h | h
        · subst h
          intro hmem
          rcases List.mem_cons.mp hmem with h | h
          · exact hc h.symm
          · exact ih p (by rw [hcs]; simp) h
        · exact ih l (by rw [hcs]; exact List.mem_cons_of_mem _ h)

theorem joinLines_splitNl : ∀ t : Str, joinLines (splitNl t) = t := by
  intro t
  induction t with
  | nil => rfl
  | cons c cs ih =>
    by_cases hc : c = '\n'
    · subst hc
      rw [splitNl_cons_nl]
      rcases hcs : splitNl cs with _ | ⟨p, ps⟩
      · exact absurd hcs (splitNl_ne_nil cs)
      · rw [show joinLines ([] :: p :: ps) = [] ++ '\n' :: joinLines (p :: ps) from rfl]
        rw [hcs] at ih
        rw [ih]
        rfl
    · rw [splitNl_cons c cs hc]
      rcases hcs : splitNl cs with _ | ⟨p, ps⟩
      · exact absurd hcs (splitNl_ne_nil cs)
      · rw [hcs] at ih
        cases ps with
        | nil =>
          rw [show joinLines [p] = p from rfl] at ih
          subst ih
          rfl
        | cons q qs =>
          rw [show joinLines (p :: q :: qs) = p ++ '\n' :: joinLines (q :: qs) from rfl] at ih
          rw [show joinLines ((c :: p) :: q :: qs)
            = (c :: p) ++ '\n' :: joinLines (q :: qs) from rfl]
          rw [show ((c :: p) ++ '\n' :: joinLines (q :: qs) : Str)
            = c :: (p ++ '\n' :: joinLines (q :: qs)) from rfl]
          rw [ih]

theorem extractHeadings_eq_filterMap (text : Str)
    (hg : ∀ l ∈ splitNl text, goodLine l) :
    extractHeadings text = (splitNl text).filterMap lineHeading := by
  rw [extractHeadings]
  conv_lhs => rw [← joinLines_splitNl text]
  exact scanHeadings_join (splitNl text) (fun l hl => ⟨splitNl_no_nl text l hl, hg l hl⟩)

/-- C9 counterexample to the claim as stated: the line `"####### Hi"` has
seven leading `'#'` followed by a space and text, yet no heading is
extracted (after at most six `'#'` the pattern demands whitespace, and `^`
does not hold mid-run); and in `"#\n## Hi"` the line `"## Hi"` (two `'#'`
plus space and text) is swallowed by the previous bare-`'#'` line — whose
match's `\s+` crosses the newline — so no heading of level 2 appears. -/
theorem c9_counterexample_extraction :
    extractHeadings (String.toList "####### Hi") = [] ∧
    extractHeadings (String.toList "#\n## Hi") = [(1, String.toList "## Hi")] ∧
    (2, String.toList "Hi") ∉ extractHeadings (String.toList "#\n## Hi") := by
  have h1 : extractHeadings (String.toList "####### Hi") = [] := by
    simp [extractHeadings, scanHeadings, matchHeadingAt, isPySpace]
  have h2 : extractHeadings (String.toList "#\n## Hi") = [(1, String.toList "## Hi")] := by
    simp [extractHeadings, scanHeadings, matchHeadingAt, isPySpace]
  refine ⟨h1, h2, ?_⟩
  rw [h2]
  decide

/-- C9 (amended): every line consisting of one to *six* leading `'#'`
characters followed by whitespace and text is extracted as a heading whose
level is the count of `'#'` characters, provided no line of the document is
a bare heading marker (one to six `'#'` followed by whitespace only), since
such a line's match swallows the following line. -/
theorem c9_heading_extraction_amended :
    ∀ text : Str, (∀ l ∈ splitNl text, goodLine l) →
      ∀ l ∈ splitNl text, 1 ≤ hashCount l → hashCount l ≤ 6 →
        1 ≤ ((l.drop (hashCount l)).takeWhile isPySpace).length →
        (hashCount l, headingTextOf l) ∈ extractHeadings text := by
  intro text hg l hl h1 h2 h3
  rw [extractHeadings_eq_filterMap text hg]
  exact List.mem_filterMap.mpr ⟨l, hl, by rw [lineHeading, if_pos ⟨h1, h2, h3⟩]⟩

/-- C9 witness: in `"# T\n### Skip"` every line is good, and the line
`"# T"` is extracted as the level-1 heading `"T"`. -/
theorem c9_heading_extraction_amended_witness :
    (∀ l ∈ splitNl skipDocText, goodLine l) ∧
    String.toList "# T" ∈ splitNl skipDocText ∧
    1 ≤ hashCount (String.toList "# T") ∧ hashCount (String.toList "# T") ≤ 6 ∧
    1 ≤ (((String.toList "# T").drop (hashCount (String.toList "# T"))).takeWhile
      isPySpace).length ∧
    (1, String.toList "T") ∈ extractHeadings skipDocText := by
  refine ⟨by decide, by decide, by decide, by decide, by decide, ?_⟩
  have h := c9_heading_extraction_amended skipDocText (by decide) (String.toList "# T")
    (by decide) (by decide) (by decide) (by decide)
  exact (by decide : (hashCount (String.toList "# T"), headingTextOf (String.toList "# T"))
    = ((1 : ℕ), String.toList "T")) ▸ h
